import Mathlib

/-!
Verification development for the GsshaPy card-file transcoder.

The repository ships as documentation (reStructuredText tutorials, changelogs
and API references); the behavioural contract of the card-file reader/writer
is recovered from that documentation.  Every definition below is therefore
modelled from the specification text: cards are key/value lines, replacement
parameters are encoded as negative integers, and the reader/writer form a
round-trip pair.  Strings are modelled as lists of characters so that all
operations are structurally recursive and fully executable.
-/

namespace GsshaPy

/-- Character strings of the transcoder, modelled as lists of characters. -/
abbrev Str := List Char

/-- Modelled from the spec: the card line format separates the leading card
name token from the value with blank characters. -/
def isSep (c : Char) : Bool := c = ' ' || c = '\t'

/-- Drop leading separator characters. -/
def dropSep (s : Str) : Str := s.dropWhile isSep

/-- Modelled from the spec: the leading token of a line is the card name. -/
def firstTok (s : Str) : Str := (dropSep s).takeWhile (fun c => !isSep c)

/-- Modelled from the spec: the remainder of the line after the leading token
and the separating blanks is the card value, kept verbatim. -/
def restAfterTok (s : Str) : Str :=
  dropSep ((dropSep s).dropWhile (fun c => !isSep c))

/-- A line consisting only of blanks carries no card. -/
def isBlank (s : Str) : Bool := s.all isSep

/-- Fuel-driven conversion of a natural number to its decimal digit string
(most significant digit first); the fuel bounds the number of divisions. -/
def natToStrAux : Nat → Nat → Str
  | 0, _ => []
  | _ + 1, 0 => []
  | fuel + 1, n + 1 =>
      natToStrAux fuel ((n + 1) / 10) ++ [Nat.digitChar ((n + 1) % 10)]

/-- Decimal digit string of a natural number (empty for zero; the transcoder
only prints positive replacement identifiers). -/
def natToStr (n : Nat) : Str := natToStrAux (n + 1) n

/-- Value of a digit string read most significant digit first. -/
def natOfDigits (s : Str) : Nat :=
  s.foldl (fun a c => a * 10 + (c.toNat - 48)) 0

/-- A non-empty string made of decimal digits only. -/
def allDigits (s : Str) : Bool := !s.isEmpty && s.all Char.isDigit

/-- Modelled from the spec: a stored card value is interpreted as an integer
when it is an optional minus sign followed by digits; the sign of a stored
integer doubles as the replacement-reference flag. -/
def strToInt? (s : Str) : Option Int :=
  match s with
  | [] => none
  | c :: rest =>
      if c = '-' then
        if allDigits rest then some (-(natOfDigits rest : Int)) else none
      else if allDigits (c :: rest) then some ((natOfDigits (c :: rest) : Int))
      else none

/-- A non-empty token free of separator characters, as card names and
replacement-target names are. -/
def tokOK (s : Str) : Bool := !s.isEmpty && s.all (fun c => !isSep c)

/-- A string of the shape of a quoted value: at least two characters, the
first and the last being a double quote. -/
def quoteShaped (s : Str) : Bool :=
  match s with
  | [] => false
  | [_] => false
  | c :: rest => c == '"' && rest.getLast? == some '"'

/-- Modelled from the spec: original value quoting is preserved verbatim; a
quoted value is split into its inner text and a flag recording the quotes. -/
def stripQuotes (s : Str) : Str × Bool :=
  if quoteShaped s then (s.tail.dropLast, true) else (s, false)

/-- Reattach the quoting recorded by stripQuotes. -/
def addQuotes (s : Str) (q : Bool) : Str :=
  if q then '"' :: (s ++ ['"']) else s

/-- Modelled from the spec: paths are stored as relative, keeping only the
part of the path after the last directory separator. -/
def afterLastSlash (s : Str) : Str :=
  (s.reverse.takeWhile (fun c => c != '/')).reverse

/-- A relative path: one containing no directory separator. -/
def isRel (s : Str) : Bool := s.all (fun c => c != '/')

/-- Modelled from the spec: on write with a new output name, a path value
whose stem matches the old file name stem is rewritten to carry the new
stem supplied by the caller (the extension part is kept). -/
def renameStem (oldStem newStem s : Str) : Str :=
  if (oldStem ++ ['.']).isPrefixOf s then newStem ++ s.drop oldStem.length
  else s

/-- Modelled from the spec: a ReplacementTarget is a named parameter with a
positive integer ID, a default value, and a string/numeric type tag. -/
structure ReplacementTarget where
  id : Nat
  name : Str
  defaultValue : Str
  numericType : Bool
deriving DecidableEq

/-- Modelled from the spec: a Card is a name and an optional value string
(possibly quoted, possibly numeric, possibly absent). -/
structure Card where
  name : Str
  value : Option Str
deriving DecidableEq

/-- Modelled from the spec: replacement support is limited to the project
file, the mapping table file and the channel input file; every other file
kind is outside the replacement scheme. -/
inductive FileKind where
  | project
  | mappingTable
  | channelInput
  | other (tag : Str)
deriving DecidableEq

/-- Whether a file kind belongs to the configured set of kinds supporting
replacement parameters. -/
def FileKind.supportsReplacement : FileKind → Bool
  | .project => true
  | .mappingTable => true
  | .channelInput => true
  | .other _ => false

/-- Modelled from the spec: the per-file-kind configuration of the
transcoder names the cards holding item counts, the cards holding path
values, and the cards whose path value names a sub-file include. -/
structure TranscoderConfig where
  kind : FileKind
  countCards : List Str
  pathCards : List Str
  subFileCards : List Str
deriving DecidableEq

/-- Modelled from the spec, error taxonomy: missing referenced sub-file,
unresolved replacement reference at write time, and replacement attempted
on an item-count card; all are warnings, none is fatal. -/
inductive Warning where
  | missingSubFile (path : Str)
  | unresolvedReplacement (v : Int)
  | unsupportedReplacementContext (cardName : Str)
deriving DecidableEq

/-- Modelled from the spec: at parse time a bare value token is matched
against the known ReplacementTarget names. -/
def lookupByName (ts : List ReplacementTarget) (tok : Str) :
    Option ReplacementTarget :=
  ts.find? (fun t => t.name == tok)

/-- Modelled from the spec: at write time a negative stored value is
resolved through the ReplacementTarget IDs. -/
def lookupById (ts : List ReplacementTarget) (i : Nat) :
    Option ReplacementTarget :=
  ts.find? (fun t => t.id == i)

/-- Outcome of parsing one line: a blank line carries nothing; a line whose
sub-file is missing on disk is skipped with a warning; any other non-blank
line yields a card together with the ground truth of whether its value was
produced by replacement substitution, plus warnings. -/
inductive LineResult where
  | blank
  | skippedMissing (path : Str)
  | parsedCard (c : Card) (replaced : Bool) (warns : List Warning)
deriving DecidableEq

/-- Modelled from the spec, parse operation: split each non-blank line into
name and verbatim value; relativize path values and check sub-file includes
against the disk; in a supported file kind with a lookup table supplied,
a value token matching a known ReplacementTarget name is replaced by the
negative of the target ID, except on item-count cards, where the
substitution is rejected with a warning and the literal is kept; all other
values are stored literally (soft failure, never a hard error). -/
def parseLine (cfg : TranscoderConfig) (topt : Option (List ReplacementTarget))
    (disk : List Str) (line : Str) : LineResult :=
  if isBlank line then .blank else
  let nm := firstTok line
  let raw := restAfterTok line
  if raw = [] then .parsedCard ⟨nm, none⟩ false [] else
  if nm ∈ cfg.subFileCards then
    let inq := stripQuotes raw
    let rel := afterLastSlash inq.1
    if rel ∈ disk then .parsedCard ⟨nm, some (addQuotes rel inq.2)⟩ false []
    else .skippedMissing rel
  else if nm ∈ cfg.pathCards then
    let inq := stripQuotes raw
    .parsedCard ⟨nm, some (addQuotes (afterLastSlash inq.1) inq.2)⟩ false []
  else if cfg.kind.supportsReplacement = true then
    match topt with
    | some ts =>
      match lookupByName ts raw with
      | some t =>
          if nm ∈ cfg.countCards then
            .parsedCard ⟨nm, some raw⟩ false
              [.unsupportedReplacementContext nm]
          else .parsedCard ⟨nm, some ('-' :: natToStr t.id)⟩ true []
      | none => .parsedCard ⟨nm, some raw⟩ false []
    | none => .parsedCard ⟨nm, some raw⟩ false []
  else .parsedCard ⟨nm, some raw⟩ false []

/-- Result of parsing a whole file: the ordered cards (each with the ground
truth replacement flag) and the accumulated warnings. -/
structure ParseResult where
  entries : List (Card × Bool)
  warnings : List Warning
deriving DecidableEq

/-- The ordered card collection of a parse result. -/
def ParseResult.cards (r : ParseResult) : List Card := r.entries.map Prod.fst

/-- Modelled from the spec: one parse pass over the lines of a file, in
order; skipped lines contribute no card, anomalies contribute warnings. -/
def parse (cfg : TranscoderConfig) (topt : Option (List ReplacementTarget))
    (disk : List Str) : List Str → ParseResult
  | [] => ⟨[], []⟩
  | l :: ls =>
    let rest := parse cfg topt disk ls
    match parseLine cfg topt disk l with
    | .blank => rest
    | .skippedMissing p => ⟨rest.entries, .missingSubFile p :: rest.warnings⟩
    | .parsedCard c rep ws => ⟨(c, rep) :: rest.entries, ws ++ rest.warnings⟩

/-- Modelled from the spec: the only hard failure of the reader is an
unparsable card line; in the NAME-VALUE line grammar every non-blank line
parses, so the reader in fact always returns normally and reports
anomalies as warnings. -/
inductive ParseError where
  | malformedLine (lineNo : Nat)
deriving DecidableEq

/-- Modelled from the spec: the read operation of a file object; structure
anomalies are non-fatal, so the result is always returned normally. -/
def parseFile (cfg : TranscoderConfig) (topt : Option (List ReplacementTarget))
    (disk : List Str) (lines : List Str) : Except ParseError ParseResult :=
  .ok (parse cfg topt disk lines)

/-- Modelled from the spec, serialize operation for one card, in original
order: a missing value emits the bare name; path and sub-file values are
re-emitted relative with their original quoting, the old file name stem
rewritten to the new one; in a supported file kind, a negative stored value
on a non-count card is resolved through the lookup table to the target
name, emitted raw with a warning when the ID is unknown, and emitted raw
without warning when no table is supplied; every other value is emitted
verbatim. -/
def writeLine (cfg : TranscoderConfig) (topt : Option (List ReplacementTarget))
    (oldStem newStem : Str) (c : Card) : Str × List Warning :=
  match c.value with
  | none => (c.name, [])
  | some v =>
    if c.name ∈ cfg.subFileCards ∨ c.name ∈ cfg.pathCards then
      let inq := stripQuotes v
      (c.name ++ ' ' :: addQuotes (renameStem oldStem newStem inq.1) inq.2, [])
    else if cfg.kind.supportsReplacement = true ∧ c.name ∉ cfg.countCards then
      match strToInt? v with
      | some n =>
        if n < 0 then
          match topt with
          | some ts =>
            match lookupById ts (-n).toNat with
            | some t => (c.name ++ ' ' :: t.name, [])
            | none => (c.name ++ ' ' :: v, [.unresolvedReplacement n])
          | none => (c.name ++ ' ' :: v, [])
        else (c.name ++ ' ' :: v, [])
      | none => (c.name ++ ' ' :: v, [])
    else (c.name ++ ' ' :: v, [])

/-- Modelled from the spec: one serialize pass emits one line per card, in
the original card order. -/
def writeLines (cfg : TranscoderConfig) (topt : Option (List ReplacementTarget))
    (oldStem newStem : Str) (cards : List Card) : List Str :=
  cards.map (fun c => (writeLine cfg topt oldStem newStem c).1)

/-- Warnings accumulated by a serialize pass. -/
def writeWarnings (cfg : TranscoderConfig)
    (topt : Option (List ReplacementTarget)) (oldStem newStem : Str)
    (cards : List Card) : List Warning :=
  cards.flatMap (fun c => (writeLine cfg topt oldStem newStem c).2)

/-- Modelled from the spec: the batch project operations detect replacement
support automatically from the presence of the REPLACE_PARAMS and
REPLACE_VALS cards in the project file; no extra caller argument is used. -/
def hasReplaceCards (projectCards : List Card) : Bool :=
  (projectCards.any (fun c => c.name == "REPLACE_PARAMS".toList)) &&
  (projectCards.any (fun c => c.name == "REPLACE_VALS".toList))

/-- The lookup table the batch operations pass along: the targets of the
project replacement file when the project file declares them, nothing
otherwise. -/
def autoTargets (projectCards : List Card)
    (replaceFileTargets : List ReplacementTarget) :
    Option (List ReplacementTarget) :=
  if hasReplaceCards projectCards then some replaceFileTargets else none

/-- Modelled from the spec: batch read of an input file through the project
file, applying replacement reading automatically. -/
def readInputAuto (cfg : TranscoderConfig) (projectCards : List Card)
    (replaceFileTargets : List ReplacementTarget) (disk : List Str)
    (lines : List Str) : ParseResult :=
  parse cfg (autoTargets projectCards replaceFileTargets) disk lines

/-- Modelled from the spec: batch write of an input file through the project
file, applying replacement writing automatically. -/
def writeInputAuto (cfg : TranscoderConfig) (projectCards : List Card)
    (replaceFileTargets : List ReplacementTarget) (oldStem newStem : Str)
    (cards : List Card) : List Str :=
  writeLines cfg (autoTargets projectCards replaceFileTargets) oldStem newStem
    cards

/-- Folding the digit accumulator over an appended digit. -/
theorem natOfDigits_append (xs : Str) (c : Char) :
    natOfDigits (xs ++ [c]) = natOfDigits xs * 10 + (c.toNat - 48) := by
  simp [natOfDigits, List.foldl_append]

/-- The decimal digit characters decode to their values. -/
theorem digitChar_val (r : Nat) (h : r < 10) :
    (Nat.digitChar r).toNat - 48 = r := by
  interval_cases r <;> rfl

/-- The decimal digit characters are digits. -/
theorem digitChar_isDigit (r : Nat) (h : r < 10) :
    (Nat.digitChar r).isDigit = true := by
  interval_cases r <;> rfl

/-- Decoding the fuel-driven digit string of a number recovers the number. -/
theorem natOfDigits_natToStrAux :
    ∀ fuel n, n ≤ fuel → natOfDigits (natToStrAux fuel n) = n := by
  intro fuel
  induction fuel with
  | zero =>
      intro n hn
      interval_cases n
      simp [natToStrAux, natOfDigits]
  | succ fuel ih =>
      intro n hn
      match n with
      | 0 => simp [natToStrAux, natOfDigits]
      | m + 1 =>
          have hdiv : (m + 1) / 10 ≤ fuel := by
            have := Nat.div_lt_self (Nat.succ_pos m) (by norm_num : 1 < 10)
            omega
          rw [natToStrAux, natOfDigits_append, ih _ hdiv,
            digitChar_val _ (Nat.mod_lt _ (by norm_num))]
          omega

/-- Decoding the digit string of a number recovers the number. -/
theorem natOfDigits_natToStr (n : Nat) : natOfDigits (natToStr n) = n :=
  natOfDigits_natToStrAux (n + 1) n (Nat.le_succ n)

/-- Every character the fuel-driven printer emits is a digit. -/
theorem natToStrAux_all_digits :
    ∀ fuel n, (natToStrAux fuel n).all Char.isDigit = true := by
  intro fuel
  induction fuel with
  | zero => intro n; simp [natToStrAux]
  | succ fuel ih =>
      intro n
      match n with
      | 0 => simp [natToStrAux]
      | m + 1 =>
          rw [natToStrAux]
          simp [List.all_append, ih,
            digitChar_isDigit _ (Nat.mod_lt _ (by norm_num))]

/-- The digit string of a positive number is non-empty. -/
theorem natToStrAux_ne_nil (fuel n : Nat) (h : 0 < n) :
    natToStrAux (fuel + 1) n ≠ [] := by
  match n with
  | m + 1 => rw [natToStrAux]; simp

/-- The digit string of a positive number is a non-empty digit string. -/
theorem allDigits_natToStr (n : Nat) (h : 0 < n) :
    allDigits (natToStr n) = true := by
  have h1 := natToStrAux_ne_nil n n h
  have h2 := natToStrAux_all_digits (n + 1) n
  simp [allDigits, natToStr] at *
  exact ⟨h1, h2⟩

/-- The canonically printed negative of a positive identifier decodes to
that negative integer. -/
theorem strToInt?_neg_natToStr (k : Nat) (h : 0 < k) :
    strToInt? ('-' :: natToStr k) = some (-(k : Int)) := by
  simp [strToInt?, allDigits_natToStr k h, natOfDigits_natToStr]

/-- A successful name lookup returns a member whose name is the token. -/
theorem lookupByName_mem {ts : List ReplacementTarget} {tok : Str}
    {t : ReplacementTarget} (h : lookupByName ts tok = some t) :
    t ∈ ts ∧ t.name = tok := by
  refine ⟨List.mem_of_find?_eq_some h, ?_⟩
  have := List.find?_some h
  simpa using this

/-- A successful ID lookup returns a member carrying that ID. -/
theorem lookupById_mem {ts : List ReplacementTarget} {i : Nat}
    {t : ReplacementTarget} (h : lookupById ts i = some t) :
    t ∈ ts ∧ t.id = i := by
  refine ⟨List.mem_of_find?_eq_some h, ?_⟩
  have := List.find?_some h
  simpa using this

/-- With pairwise distinct IDs, looking up a member's ID finds it. -/
theorem lookupById_self {ts : List ReplacementTarget}
    (hd : ts.Pairwise (fun a b => a.id ≠ b.id)) {t : ReplacementTarget}
    (ht : t ∈ ts) : lookupById ts t.id = some t := by
  induction ts with
  | nil => cases ht
  | cons u us ih =>
      rcases List.mem_cons.mp ht with h | h
      · subst h; simp [lookupById, List.find?_cons]
      · have hne : u.id ≠ t.id := (List.pairwise_cons.mp hd).1 t h
        have : (u.id == t.id) = false := by simpa using hne
        simp only [lookupById, List.find?_cons, this]
        exact ih (List.pairwise_cons.mp hd).2 h

/-- With pairwise distinct names, looking up a member's name finds it. -/
theorem lookupByName_self {ts : List ReplacementTarget}
    (hd : ts.Pairwise (fun a b => a.name ≠ b.name)) {t : ReplacementTarget}
    (ht : t ∈ ts) : lookupByName ts t.name = some t := by
  induction ts with
  | nil => cases ht
  | cons u us ih =>
      rcases List.mem_cons.mp ht with h | h
      · subst h; simp [lookupByName, List.find?_cons]
      · have hne : u.name ≠ t.name := (List.pairwise_cons.mp hd).1 t h
        have : (u.name == t.name) = false := by simpa using hne
        simp only [lookupByName, List.find?_cons, this]
        exact ih (List.pairwise_cons.mp hd).2 h

/-- A numeric-looking token matches no target when no target name is
numeric. -/
theorem lookupByName_none_of_num {ts : List ReplacementTarget} {v : Str}
    (hnm : ∀ t ∈ ts, strToInt? t.name = none) {n : Int}
    (hv : strToInt? v = some n) : lookupByName ts v = none := by
  refine List.find?_eq_none.mpr ?_
  intro t ht
  have hne : t.name ≠ v := by
    intro he
    have hts := hnm t ht
    rw [he, hv] at hts
    exact Option.noConfusion hts
  simpa using hne

/-- Unpacking of the token well-formedness Boolean. -/
theorem tokOK_parts {s : Str} (h : tokOK s = true) :
    s ≠ [] ∧ ∀ x ∈ s, isSep x = false := by
  simp only [tokOK, Bool.and_eq_true, Bool.not_eq_true',
    List.all_eq_true] at h
  refine ⟨?_, fun x hx => h.2 x hx⟩
  intro hs
  rw [hs] at h
  simp at h

/-- Dropping separators leaves a list with a non-separator head alone. -/
theorem dropSep_cons_nonsep (a : Char) (t : List Char) (ha : isSep a = false) :
    dropSep (a :: t) = a :: t := by
  simp [dropSep, List.dropWhile_cons, ha]

/-- Dropping separators consumes a leading blank. -/
theorem dropSep_cons_sep (v : Str) : dropSep (' ' :: v) = dropSep v := by
  simp [dropSep, List.dropWhile_cons, isSep]

/-- Dropping separators from a head-clean or empty list is the identity. -/
theorem dropSep_id (v : Str)
    (hv : v = [] ∨ ∃ a t, v = a :: t ∧ isSep a = false) : dropSep v = v := by
  rcases hv with hv | ⟨a, t, hat, ha⟩
  · simp [hv, dropSep]
  · rw [hat]; exact dropSep_cons_nonsep a t ha

/-- The head of a well-formed token is not a separator. -/
theorem tokOK_head {a : Char} {l : List Char} (h : tokOK (a :: l) = true) :
    isSep a = false :=
  (tokOK_parts h).2 a (List.mem_cons_self a l)

/-- Taking the non-separator part of a token line stops at the blank. -/
theorem takeWhile_nonsep_append (name v : Str)
    (h : ∀ x ∈ name, isSep x = false) :
    (name ++ ' ' :: v).takeWhile (fun c => !isSep c) = name := by
  induction name with
  | nil => simp [List.takeWhile_cons, isSep]
  | cons a l ih =>
      have ha : isSep a = false := h a (List.mem_cons_self a l)
      have hl : ∀ x ∈ l, isSep x = false :=
        fun x hx => h x (List.mem_cons_of_mem a hx)
      simp [List.takeWhile_cons, ha, ih hl]

/-- Dropping the non-separator part of a token line stops at the blank. -/
theorem dropWhile_nonsep_append (name v : Str)
    (h : ∀ x ∈ name, isSep x = false) :
    (name ++ ' ' :: v).dropWhile (fun c => !isSep c) = ' ' :: v := by
  induction name with
  | nil => simp [List.dropWhile_cons, isSep]
  | cons a l ih =>
      have ha : isSep a = false := h a (List.mem_cons_self a l)
      have hl : ∀ x ∈ l, isSep x = false :=
        fun x hx => h x (List.mem_cons_of_mem a hx)
      simp [List.dropWhile_cons, ha, ih hl]

/-- A line built from a token and a value yields the token as card name. -/
theorem firstTok_build (name v : Str) (h : tokOK name = true) :
    firstTok (name ++ ' ' :: v) = name := by
  obtain ⟨h1, h2⟩ := tokOK_parts h
  match name, h1 with
  | a :: l, _ =>
      have ha : isSep a = false := h2 a (List.mem_cons_self a l)
      rw [firstTok, show (a :: l ++ ' ' :: v) = a :: (l ++ ' ' :: v) by simp,
        dropSep_cons_nonsep a _ ha,
        show a :: (l ++ ' ' :: v) = (a :: l) ++ ' ' :: v by simp]
      exact takeWhile_nonsep_append (a :: l) v h2

/-- A line built from a token and a head-clean value yields the value as
the card value. -/
theorem restAfterTok_build (name v : Str) (h : tokOK name = true)
    (hv : v = [] ∨ ∃ a t, v = a :: t ∧ isSep a = false) :
    restAfterTok (name ++ ' ' :: v) = v := by
  obtain ⟨h1, h2⟩ := tokOK_parts h
  match name, h1 with
  | a :: l, _ =>
      have ha : isSep a = false := h2 a (List.mem_cons_self a l)
      rw [restAfterTok, show (a :: l ++ ' ' :: v) = a :: (l ++ ' ' :: v) by
          simp,
        dropSep_cons_nonsep a _ ha,
        show a :: (l ++ ' ' :: v) = (a :: l) ++ ' ' :: v by simp,
        dropWhile_nonsep_append (a :: l) v h2, dropSep_cons_sep,
        dropSep_id v hv]

/-- A line starting with a token is not blank. -/
theorem isBlank_build (name rest : Str) (h : tokOK name = true) :
    isBlank (name ++ rest) = false := by
  obtain ⟨h1, h2⟩ := tokOK_parts h
  match name, h1 with
  | a :: l, _ =>
      have ha : isSep a = false := h2 a (List.mem_cons_self a l)
      simp [isBlank, ha]

/-- A bare token line yields the token as card name. -/
theorem firstTok_self (name : Str) (h : tokOK name = true) :
    firstTok name = name := by
  obtain ⟨h1, h2⟩ := tokOK_parts h
  match name, h1 with
  | a :: l, _ =>
      have ha : isSep a = false := h2 a (List.mem_cons_self a l)
      rw [firstTok, dropSep_cons_nonsep a _ ha]
      refine List.takeWhile_eq_self_iff.mpr (fun x hx => ?_)
      simp [h2 x hx]

/-- A bare token line has no value part. -/
theorem restAfterTok_self (name : Str) (h : tokOK name = true) :
    restAfterTok name = [] := by
  obtain ⟨h1, h2⟩ := tokOK_parts h
  match name, h1 with
  | a :: l, _ =>
      have ha : isSep a = false := h2 a (List.mem_cons_self a l)
      rw [restAfterTok, dropSep_cons_nonsep a _ ha,
        List.dropWhile_eq_nil_iff.mpr (fun x hx => by simp [h2 x hx])]
      rfl

/-- Reattaching recorded quotes undoes the quote stripping. -/
theorem addQuotes_stripQuotes (v : Str) :
    addQuotes (stripQuotes v).1 (stripQuotes v).2 = v := by
  by_cases hq : quoteShaped v = true
  · cases v with
    | nil => simp [quoteShaped] at hq
    | cons c rest =>
        cases rest with
        | nil => simp [quoteShaped] at hq
        | cons r rs =>
            have hparts : c = '"' ∧ (r :: rs).getLast? = some '"' := by
              simp only [quoteShaped, Bool.and_eq_true, beq_iff_eq] at hq
              exact ⟨hq.1, by simpa using hq.2⟩
            obtain ⟨hc, hlast⟩ := hparts
            have hne : (r :: rs) ≠ [] := by simp
            have hsq : stripQuotes (c :: r :: rs) = ((r :: rs).dropLast, true) := by
              simp [stripQuotes, hq]
            rw [hsq]
            simp only [addQuotes, if_pos]
            have hglast : (r :: rs).getLast hne = '"' := by
              rw [List.getLast?_eq_getLast (r :: rs) hne] at hlast
              exact Option.some_injective _ hlast
            have key : (r :: rs).dropLast ++ ['"'] = r :: rs := by
              rw [← hglast]
              exact List.dropLast_append_getLast hne
            rw [key, hc]
  · simp only [stripQuotes, hq]
    simp [addQuotes]

/-- Stripping the quotes this development attaches recovers the text. -/
theorem stripQuotes_addQuotes_true (s : Str) :
    stripQuotes (addQuotes s true) = (s, true) := by
  have hq : quoteShaped (addQuotes s true) = true := by
    cases s with
    | nil => decide
    | cons a l =>
        have hsh : addQuotes (a :: l) true = '"' :: a :: (l ++ ['"']) := by
          simp [addQuotes]
        have hl : (a :: (l ++ ['"'])).getLast? = some '"' := by
          rw [show a :: (l ++ ['"']) = (a :: l) ++ ['"'] by simp,
            List.getLast?_concat]
        rw [hsh]
        simp [quoteShaped, hl]
  rw [stripQuotes, if_pos hq]
  rw [show addQuotes s true = '"' :: (s ++ ['"']) from rfl]
  simp [List.dropLast_concat]

/-- The part after the last slash contains no slash. -/
theorem isRel_afterLastSlash (s : Str) : isRel (afterLastSlash s) = true := by
  simp only [isRel, afterLastSlash, List.all_reverse]
  refine List.all_eq_true.mpr (fun x hx => ?_)
  have := List.mem_takeWhile_imp hx
  simpa using this

/-- A relative path is unchanged by relativization. -/
theorem afterLastSlash_of_isRel (s : Str) (h : isRel s = true) :
    afterLastSlash s = s := by
  simp only [afterLastSlash]
  rw [List.takeWhile_eq_self_iff.mpr]
  · simp
  · intro x hx
    rw [List.mem_reverse] at hx
    exact List.all_eq_true.mp h x hx

/-- Quote stripping preserves relativity. -/
theorem isRel_stripQuotes (v : Str) (h : isRel v = true) :
    isRel (stripQuotes v).1 = true := by
  by_cases hq : quoteShaped v = true
  · simp only [stripQuotes, hq, if_pos]
    simp only [isRel] at *
    refine List.all_eq_true.mpr (fun x hx => ?_)
    have hx2 : x ∈ v.tail := List.dropLast_subset _ hx
    have hx3 : x ∈ v := List.tail_subset _ hx2
    exact List.all_eq_true.mp h x hx3
  · simpa [stripQuotes, hq] using h

/-- A list decomposes as a leading match followed by the dropped rest. -/
theorem isPrefixOf_parts : ∀ {xs ys : Str}, xs.isPrefixOf ys = true →
    ys = xs ++ ys.drop xs.length := by
  intro xs
  induction xs with
  | nil => intro ys _; simp
  | cons a l ih =>
      intro ys h
      cases ys with
      | nil => simp [List.isPrefixOf] at h
      | cons b t =>
          simp only [List.isPrefixOf, Bool.and_eq_true, beq_iff_eq] at h
          simp only [List.length_cons, List.drop_succ_cons,
            List.cons_append]
          rw [← h.1, ← ih h.2]

/-- Rewriting a stem to itself is the identity. -/
theorem renameStem_self (p s : Str) : renameStem p p s = s := by
  simp only [renameStem]
  by_cases h : (p ++ ['.']).isPrefixOf s = true
  · rw [if_pos h]
    have hs := isPrefixOf_parts h
    conv_lhs => rw [hs]
    conv_rhs => rw [hs]
    rw [List.append_assoc, List.singleton_append, List.drop_left]
  · rw [if_neg h]

/-- A stem rewrite on a matching relative path yields the new stem followed
by the old extension. -/
theorem renameStem_match (oldS newS s : Str)
    (h : (oldS ++ ['.']).isPrefixOf s = true) :
    renameStem oldS newS s = newS ++ s.drop oldS.length := by
  simp [renameStem, h]

/-- A stem rewrite keeps a path relative when the new stem is relative. -/
theorem isRel_renameStem (oldS newS s : Str) (hs : isRel s = true)
    (hn : isRel newS = true) : isRel (renameStem oldS newS s) = true := by
  simp only [renameStem]
  by_cases h : (oldS ++ ['.']).isPrefixOf s = true
  · rw [if_pos h]
    simp only [isRel, List.all_append, Bool.and_eq_true] at *
    refine ⟨hn, ?_⟩
    refine List.all_eq_true.mpr (fun x hx => ?_)
    exact List.all_eq_true.mp hs x (List.drop_subset _ _ hx)
  · rw [if_neg h]; exact hs

/-- Modelled from the spec: well-formedness of a replacement lookup table —
every target carries a positive ID, target names are bare identifier tokens
(non-numeric, blank-free), and IDs and names are pairwise distinct. -/
def WFTargets (ts : List ReplacementTarget) : Prop :=
  (∀ t ∈ ts, 0 < t.id) ∧ (∀ t ∈ ts, strToInt? t.name = none) ∧
  (∀ t ∈ ts, tokOK t.name = true) ∧
  ts.Pairwise (fun a b => a.id ≠ b.id) ∧
  ts.Pairwise (fun a b => a.name ≠ b.name)

/-- Well-formedness of an optional lookup table. -/
def WFTopt : Option (List ReplacementTarget) → Prop
  | none => True
  | some ts => WFTargets ts

/-- A non-empty string with a non-separator head, as every value the parser
stores is. -/
def headOK : Str → Bool
  | [] => false
  | a :: _ => !isSep a

/-- Modelled from the spec: the shape of a stored card value on which the
write pass and a subsequent parse pass agree — path values are relative
(and sub-file values present on disk), and a negative numeric value in
replacement position is canonically printed. -/
def goodValue (cfg : TranscoderConfig) (topt : Option (List ReplacementTarget))
    (disk : List Str) (nm v : Str) : Bool :=
  if nm ∈ cfg.subFileCards then
    isRel (stripQuotes v).1 && decide ((stripQuotes v).1 ∈ disk)
  else if nm ∈ cfg.pathCards then
    isRel (stripQuotes v).1
  else if cfg.kind.supportsReplacement = true ∧ nm ∉ cfg.countCards then
    match topt with
    | some ts =>
      match strToInt? v with
      | some n =>
          if n < 0 then decide (v = '-' :: natToStr (-n).toNat) else true
      | none => decide (lookupByName ts v = none)
    | none => true
  else true

/-- A card on which re-parsing the written line restores the card. -/
def goodCard (cfg : TranscoderConfig) (topt : Option (List ReplacementTarget))
    (disk : List Str) (c : Card) : Bool :=
  tokOK c.name &&
  (match c.value with
   | none => true
   | some v => headOK v && goodValue cfg topt disk c.name v)

/-- A well-formed token has a clean head. -/
theorem headOK_of_tokOK {s : Str} (h : tokOK s = true) : headOK s = true := by
  obtain ⟨h1, h2⟩ := tokOK_parts h
  match s, h1 with
  | a :: l, _ => simp [headOK, h2 a (List.mem_cons_self a l)]

/-- Reduction of the line parser on a bare token line. -/
theorem parseLine_bare (cfg : TranscoderConfig)
    (topt : Option (List ReplacementTarget)) (disk : List Str) (nm : Str)
    (h : tokOK nm = true) :
    parseLine cfg topt disk nm = .parsedCard ⟨nm, none⟩ false [] := by
  have hb : isBlank nm = false := by
    have := isBlank_build nm [] h
    simpa using this
  simp [parseLine, hb, firstTok_self nm h, restAfterTok_self nm h]

/-- Reduction of the line parser on a token-value line. -/
theorem parseLine_build (cfg : TranscoderConfig)
    (topt : Option (List ReplacementTarget)) (disk : List Str) (nm v : Str)
    (h : tokOK nm = true) (hv : headOK v = true) :
    parseLine cfg topt disk (nm ++ ' ' :: v) =
      (if nm ∈ cfg.subFileCards then
        if afterLastSlash (stripQuotes v).1 ∈ disk then
          LineResult.parsedCard
            ⟨nm, some (addQuotes (afterLastSlash (stripQuotes v).1)
              (stripQuotes v).2)⟩ false []
        else LineResult.skippedMissing (afterLastSlash (stripQuotes v).1)
      else if nm ∈ cfg.pathCards then
        LineResult.parsedCard
          ⟨nm, some (addQuotes (afterLastSlash (stripQuotes v).1)
            (stripQuotes v).2)⟩ false []
      else if cfg.kind.supportsReplacement = true then
        match topt with
        | some ts =>
          match lookupByName ts v with
          | some t =>
              if nm ∈ cfg.countCards then
                LineResult.parsedCard ⟨nm, some v⟩ false
                  [.unsupportedReplacementContext nm]
              else LineResult.parsedCard ⟨nm, some ('-' :: natToStr t.id)⟩
                true []
          | none => LineResult.parsedCard ⟨nm, some v⟩ false []
        | none => LineResult.parsedCard ⟨nm, some v⟩ false []
      else LineResult.parsedCard ⟨nm, some v⟩ false []) := by
  have hb : isBlank (nm ++ ' ' :: v) = false := isBlank_build nm (' ' :: v) h
  have hft : firstTok (nm ++ ' ' :: v) = nm := firstTok_build nm v h
  have hrt : restAfterTok (nm ++ ' ' :: v) = v := by
    refine restAfterTok_build nm v h ?_
    cases v with
    | nil => simp [headOK] at hv
    | cons a t =>
        right
        exact ⟨a, t, rfl, by simpa [headOK] using hv⟩
  have hvne : v ≠ [] := by
    cases v with
    | nil => simp [headOK] at hv
    | cons a t => simp
  simp only [parseLine, hb, hft, hrt]
  simp [hvne]

/-- Re-parsing the line written for a good card restores the card: the core
of the round-trip contract. -/
theorem reparse_writeLine (cfg : TranscoderConfig)
    (topt : Option (List ReplacementTarget)) (disk : List Str) (stem : Str)
    (c : Card) (hW : WFTopt topt) (hG : goodCard cfg topt disk c = true) :
    ∃ rep ws, parseLine cfg topt disk (writeLine cfg topt stem stem c).1
      = .parsedCard c rep ws := by
  obtain ⟨nm, val⟩ := c
  cases val with
  | none =>
      have hname : tokOK nm = true := by
        simpa [goodCard, Bool.and_eq_true] using hG
      refine ⟨false, [], ?_⟩
      simp only [writeLine]
      exact parseLine_bare cfg topt disk nm hname
  | some v =>
      have hparts : tokOK nm = true ∧ headOK v = true ∧
          goodValue cfg topt disk nm v = true := by
        simpa [goodCard, Bool.and_eq_true] using hG
      obtain ⟨hname, hhead, hgv⟩ := hparts
      by_cases hsub : nm ∈ cfg.subFileCards
      · have hrel : isRel (stripQuotes v).1 = true ∧ (stripQuotes v).1 ∈ disk := by
          simpa [goodValue, hsub, Bool.and_eq_true] using hgv
        have hals : afterLastSlash (stripQuotes v).1 = (stripQuotes v).1 :=
          afterLastSlash_of_isRel _ hrel.1
        have hline : (writeLine cfg topt stem stem ⟨nm, some v⟩).1
            = nm ++ ' ' :: v := by
          simp only [writeLine]
          rw [if_pos (Or.inl hsub)]
          simp [renameStem_self, addQuotes_stripQuotes]
        refine ⟨false, [], ?_⟩
        rw [hline, parseLine_build cfg topt disk nm v hname hhead,
          if_pos hsub, hals, if_pos hrel.2, addQuotes_stripQuotes]
      · by_cases hpath : nm ∈ cfg.pathCards
        · have hrel : isRel (stripQuotes v).1 = true := by
            simpa [goodValue, hsub, hpath] using hgv
          have hals : afterLastSlash (stripQuotes v).1 = (stripQuotes v).1 :=
            afterLastSlash_of_isRel _ hrel
          have hline : (writeLine cfg topt stem stem ⟨nm, some v⟩).1
              = nm ++ ' ' :: v := by
            simp only [writeLine]
            rw [if_pos (Or.inr hpath)]
            simp [renameStem_self, addQuotes_stripQuotes]
          refine ⟨false, [], ?_⟩
          rw [hline, parseLine_build cfg topt disk nm v hname hhead,
            if_neg hsub, if_pos hpath, hals, addQuotes_stripQuotes]
        · have hnsp : ¬(nm ∈ cfg.subFileCards ∨ nm ∈ cfg.pathCards) := by
            tauto
          by_cases hc2 : cfg.kind.supportsReplacement = true ∧
              nm ∉ cfg.countCards
          · cases topt with
            | none =>
                have hline : (writeLine cfg none stem stem ⟨nm, some v⟩).1
                    = nm ++ ' ' :: v := by
                  simp only [writeLine]
                  rw [if_neg hnsp, if_pos hc2]
                  cases hsi : strToInt? v with
                  | none => rfl
                  | some n => by_cases hneg : n < 0 <;> simp [hneg]
                refine ⟨false, [], ?_⟩
                rw [hline, parseLine_build cfg none disk nm v hname hhead,
                  if_neg hsub, if_neg hpath]
                by_cases hsup : cfg.kind.supportsReplacement = true <;>
                  simp [hsup]
            | some ts =>
                have hWF : WFTargets ts := hW
                have hgv2 : (match strToInt? v with
                    | some n =>
                        if n < 0 then
                          decide (v = '-' :: natToStr (-n).toNat)
                        else true
                    | none => decide (lookupByName ts v = none)) = true := by
                  simpa [goodValue, hsub, hpath, hc2] using hgv
                cases hsi : strToInt? v with
                | none =>
                    have hln : lookupByName ts v = none := by
                      rw [hsi] at hgv2
                      simpa using hgv2
                    have hline :
                        (writeLine cfg (some ts) stem stem ⟨nm, some v⟩).1
                          = nm ++ ' ' :: v := by
                      simp only [writeLine]
                      rw [if_neg hnsp, if_pos hc2, hsi]
                    refine ⟨false, [], ?_⟩
                    rw [hline,
                      parseLine_build cfg (some ts) disk nm v hname hhead,
                      if_neg hsub, if_neg hpath, if_pos hc2.1]
                    simp [hln]
                | some n =>
                    by_cases hneg : n < 0
                    · have hcanon : v = '-' :: natToStr (-n).toNat := by
                        rw [hsi] at hgv2
                        simp only [hneg, if_pos] at hgv2
                        simpa using hgv2
                      cases hbi : lookupById ts (-n).toNat with
                      | none =>
                          have hln : lookupByName ts v = none :=
                            lookupByName_none_of_num hWF.2.1 hsi
                          have hline :
                              (writeLine cfg (some ts) stem stem
                                ⟨nm, some v⟩).1 = nm ++ ' ' :: v := by
                            simp only [writeLine]
                            rw [if_neg hnsp, if_pos hc2, hsi]
                            simp [hneg, hbi]
                          refine ⟨false, [], ?_⟩
                          rw [hline,
                            parseLine_build cfg (some ts) disk nm v hname
                              hhead,
                            if_neg hsub, if_neg hpath, if_pos hc2.1]
                          simp [hln]
                      | some t =>
                          obtain ⟨htm, htid⟩ := lookupById_mem hbi
                          have htn : tokOK t.name = true := hWF.2.2.1 t htm
                          have hline :
                              (writeLine cfg (some ts) stem stem
                                ⟨nm, some v⟩).1 = nm ++ ' ' :: t.name := by
                            simp only [writeLine]
                            rw [if_neg hnsp, if_pos hc2, hsi]
                            simp [hneg, hbi]
                          have hfind : lookupByName ts t.name = some t :=
                            lookupByName_self hWF.2.2.2.2 htm
                          refine ⟨true, [], ?_⟩
                          rw [hline,
                            parseLine_build cfg (some ts) disk nm t.name
                              hname (headOK_of_tokOK htn),
                            if_neg hsub, if_neg hpath, if_pos hc2.1]
                          simp only [hfind]
                          rw [if_neg hc2.2, htid, ← hcanon]
                    · have hln : lookupByName ts v = none :=
                          lookupByName_none_of_num hWF.2.1 hsi
                      have hline :
                          (writeLine cfg (some ts) stem stem ⟨nm, some v⟩).1
                            = nm ++ ' ' :: v := by
                        simp only [writeLine]
                        rw [if_neg hnsp, if_pos hc2, hsi]
                        simp [hneg]
                      refine ⟨false, [], ?_⟩
                      rw [hline,
                        parseLine_build cfg (some ts) disk nm v hname hhead,
                        if_neg hsub, if_neg hpath, if_pos hc2.1]
                      simp [hln]
          · have hline : (writeLine cfg topt stem stem ⟨nm, some v⟩).1
                = nm ++ ' ' :: v := by
              simp only [writeLine]
              rw [if_neg hnsp, if_neg hc2]
            rw [hline, parseLine_build cfg topt disk nm v hname hhead,
              if_neg hsub, if_neg hpath]
            by_cases hsup : cfg.kind.supportsReplacement = true
            · have hcnt : nm ∈ cfg.countCards := by tauto
              cases topt with
              | none => exact ⟨false, [], by simp [hsup]⟩
              | some ts =>
                  rw [if_pos hsup]
                  cases hlk : lookupByName ts v with
                  | none => exact ⟨false, [], by simp [hlk]⟩
                  | some t =>
                      exact ⟨false, [.unsupportedReplacementContext nm],
                        by simp [hlk, hcnt]⟩
            · exact ⟨false, [], by simp [hsup]⟩

/-- Re-parsing all written lines of a list of good cards restores the card
list. -/
theorem reparse_writeLines (cfg : TranscoderConfig)
    (topt : Option (List ReplacementTarget)) (disk : List Str) (stem : Str)
    (cs : List Card) (hW : WFTopt topt)
    (hG : ∀ c ∈ cs, goodCard cfg topt disk c = true) :
    (parse cfg topt disk (writeLines cfg topt stem stem cs)).cards = cs := by
  induction cs with
  | nil => simp [writeLines, parse, ParseResult.cards]
  | cons c cs ih =>
      obtain ⟨rep, ws, hpl⟩ := reparse_writeLine cfg topt disk stem c hW
        (hG c (List.mem_cons_self c cs))
      have ihh := ih (fun x hx => hG x (List.mem_cons_of_mem c hx))
      simp only [writeLines, List.map_cons] at *
      simp only [parse, hpl, ParseResult.cards, List.map_cons]
      simp only [ParseResult.cards] at ihh
      rw [ihh]

/-- Parsing distributes over concatenation of line lists. -/
theorem parse_append (cfg : TranscoderConfig)
    (topt : Option (List ReplacementTarget)) (disk : List Str)
    (xs ys : List Str) :
    parse cfg topt disk (xs ++ ys) =
      ⟨(parse cfg topt disk xs).entries ++ (parse cfg topt disk ys).entries,
       (parse cfg topt disk xs).warnings
         ++ (parse cfg topt disk ys).warnings⟩ := by
  induction xs with
  | nil => simp [parse]
  | cons l ls ih =>
      cases hpl : parseLine cfg topt disk l with
      | blank => simp [parse, hpl, ih]
      | skippedMissing p => simp [parse, hpl, ih]
      | parsedCard c rep ws => simp [parse, hpl, ih]

/-- Without a lookup table no line is ever marked as replaced. -/
theorem parseLine_none_rep_false (cfg : TranscoderConfig) (disk : List Str)
    (l : Str) (c : Card) (rep : Bool) (ws : List Warning)
    (h : parseLine cfg none disk l = .parsedCard c rep ws) : rep = false := by
  simp only [parseLine] at h
  iterate 10 (all_goals (try split at h))
  all_goals first
    | exact LineResult.noConfusion h
    | (injection h with h1 h2 h3; exact h2.symm)

/-- The name of every parsed card is the literal leading token of its
line. -/
theorem parseLine_name (cfg : TranscoderConfig)
    (topt : Option (List ReplacementTarget)) (disk : List Str) (line : Str)
    (c : Card) (rep : Bool) (ws : List Warning)
    (h : parseLine cfg topt disk line = .parsedCard c rep ws) :
    c.name = firstTok line := by
  simp only [parseLine] at h
  iterate 10 (all_goals (try split at h))
  all_goals first
    | exact LineResult.noConfusion h
    | (injection h with h1 h2 h3; rw [← h1])

/-- Inversion of a non-replaced parse outside path positions: the stored
value is the literal remainder of the line, or absent. -/
theorem parseLine_literal_inv (cfg : TranscoderConfig)
    (topt : Option (List ReplacementTarget)) (disk : List Str) (line : Str)
    (c : Card) (ws : List Warning)
    (hs : firstTok line ∉ cfg.subFileCards)
    (hp : firstTok line ∉ cfg.pathCards)
    (h : parseLine cfg topt disk line = .parsedCard c false ws) :
    c.value = none ∨ c.value = some (restAfterTok line) := by
  simp only [parseLine] at h
  iterate 10 (all_goals (try split at h))
  all_goals first
    | exact LineResult.noConfusion h
    | (injection h with h1 h2 h3; exact Bool.noConfusion h2)
    | (injection h with h1 h2 h3; subst h1; simp_all)

/-- In a file kind outside the replacement scheme no line is ever marked as
replaced. -/
theorem parseLine_unsupported_rep_false (cfg : TranscoderConfig)
    (topt : Option (List ReplacementTarget)) (disk : List Str) (line : Str)
    (c : Card) (rep : Bool) (ws : List Warning)
    (hk : cfg.kind.supportsReplacement = false)
    (h : parseLine cfg topt disk line = .parsedCard c rep ws) : rep = false := by
  simp only [parseLine] at h
  iterate 10 (all_goals (try split at h))
  all_goals first
    | exact LineResult.noConfusion h
    | (injection h with h1 h2 h3; exact h2.symm)
    | simp_all

/-- Inversion of a replaced parse: the replacement branch facts. -/
theorem parseLine_replaced_inv (cfg : TranscoderConfig)
    (ts : List ReplacementTarget) (disk : List Str) (line : Str) (c : Card)
    (ws : List Warning)
    (h : parseLine cfg (some ts) disk line = .parsedCard c true ws) :
    ∃ t, lookupByName ts (restAfterTok line) = some t ∧ t ∈ ts ∧
      t.name = restAfterTok line ∧ cfg.kind.supportsReplacement = true ∧
      c.name = firstTok line ∧ c.name ∉ cfg.countCards ∧
      c.name ∉ cfg.subFileCards ∧ c.name ∉ cfg.pathCards ∧
      c.value = some ('-' :: natToStr t.id) ∧ ws = [] := by
  have hname := parseLine_name cfg (some ts) disk line c true ws h
  simp only [parseLine] at h
  iterate 10 (all_goals (try split at h))
  all_goals first
    | exact LineResult.noConfusion h
    | (injection h with h1 h2 h3; exact Bool.noConfusion h2)
    | (injection h with h1 h2 h3
       rename_i t heq hcount
       refine ⟨t, heq, (lookupByName_mem heq).1, (lookupByName_mem heq).2,
         by assumption, hname, ?_, ?_, ?_, ?_, h3.symm⟩ <;>
         (first | (rw [hname]; simp_all) | (rw [← h1]) | simp_all))

/-- Without a lookup table a parse pass performs no substitution at all. -/
theorem parse_none_no_replace (cfg : TranscoderConfig) (disk : List Str)
    (lines : List Str) :
    ∀ e ∈ (parse cfg none disk lines).entries, e.2 = false := by
  induction lines with
  | nil => intro e he; simp [parse] at he
  | cons l ls ih =>
      intro e he
      cases hpl : parseLine cfg none disk l with
      | blank =>
          simp only [parse, hpl] at he
          exact ih e he
      | skippedMissing p =>
          simp only [parse, hpl] at he
          exact ih e he
      | parsedCard c0 rep ws =>
          simp only [parse, hpl, List.mem_cons] at he
          rcases he with he | he
          · rw [he]
            exact parseLine_none_rep_false cfg disk l c0 rep ws hpl
          · exact ih e he

/-- Inversion of a parse on a path or sub-file card: the stored value, when
present, is a relativized, quote-preserving path. -/
theorem parseLine_path_inv (cfg : TranscoderConfig)
    (topt : Option (List ReplacementTarget)) (disk : List Str) (line : Str)
    (c : Card) (rep : Bool) (ws : List Warning)
    (hp : firstTok line ∈ cfg.pathCards ∨ firstTok line ∈ cfg.subFileCards)
    (h : parseLine cfg topt disk line = .parsedCard c rep ws) :
    c.value = none ∨ ∃ v0 : Str, c.value
      = some (addQuotes (afterLastSlash (stripQuotes v0).1)
          (stripQuotes v0).2) := by
  simp only [parseLine] at h
  iterate 10 (all_goals (try split at h))
  all_goals first
    | exact LineResult.noConfusion h
    | (injection h with h1 h2 h3
       subst h1
       exact Or.inr ⟨restAfterTok line, rfl⟩)
    | (injection h with h1 h2 h3; subst h1; simp_all)

/-- Attaching and stripping quotes around a relative path keeps it
relative. -/
theorem isRel_strip_add (rel : Str) (q : Bool) (h : isRel rel = true) :
    isRel (stripQuotes (addQuotes rel q)).1 = true := by
  cases q
  · simpa [addQuotes] using isRel_stripQuotes rel h
  · rw [stripQuotes_addQuotes_true]
    exact h

/-- C1, counterexample: in a supported file kind (project file) the line
PARAM -7, parsed with a lookup table holding only target ID 5, stores the
literal negative value -7 although the card was not produced by replacement
substitution and no target with ID 7 exists — so a negative stored value
does not imply a replacement reference. -/
theorem claim1_sign_cex :
    parseLine ⟨.project, [], [], []⟩
        (some [⟨5, "roughness_param".toList, "0.05".toList, true⟩]) []
        ("PARAM -7".toList)
      = .parsedCard ⟨"PARAM".toList, some ("-7".toList)⟩ false [] ∧
    strToInt? ("-7".toList) = some (-7) ∧ ((-7 : Int) < 0) ∧
    (∀ t ∈ [(⟨5, "roughness_param".toList, "0.05".toList, true⟩ :
        ReplacementTarget)], (t.id : Int) ≠ 7) ∧
    FileKind.supportsReplacement .project = true := by
  decide

/-- C1 (amended): in a supported file kind, every card value produced by
replacement substitution is stored as the negative of the referenced
target's positive ID — hence negative — and every card not produced by
substitution stores the literal input token; since a literal token may
itself be a negative integer, the negative sign implies a reference only
for values that went through substitution. -/
theorem claim1_sign_amended (cfg : TranscoderConfig)
    (ts : List ReplacementTarget) (disk : List Str) (line : Str) (c : Card)
    (rep : Bool) (ws : List Warning) (hpos : ∀ t ∈ ts, 0 < t.id)
    (h : parseLine cfg (some ts) disk line = .parsedCard c rep ws) :
    (rep = true →
      ∃ t ∈ ts, lookupByName ts (restAfterTok line) = some t ∧
        c.value = some ('-' :: natToStr t.id) ∧
        strToInt? ('-' :: natToStr t.id) = some (-(t.id : Int)) ∧
        -(t.id : Int) < 0) ∧
    (rep = false → c.name ∉ cfg.subFileCards → c.name ∉ cfg.pathCards →
      c.value = none ∨ c.value = some (restAfterTok line)) := by
  constructor
  · intro hrep
    subst hrep
    obtain ⟨t, heq, htm, _, _, _, _, _, _, hvalue, _⟩ :=
      parseLine_replaced_inv cfg ts disk line c ws h
    have hid : 0 < t.id := hpos t htm
    exact ⟨t, htm, heq, hvalue, strToInt?_neg_natToStr t.id hid,
      neg_neg_of_pos (by exact_mod_cast hid)⟩
  · intro hrep hs hp
    subst hrep
    have hname := parseLine_name cfg (some ts) disk line c false ws h
    exact parseLine_literal_inv cfg (some ts) disk line c ws
      (hname ▸ hs) (hname ▸ hp) h

/-- C1 witness: the amended statement at the concrete replaced line
ROUGHNESS roughness_param against target ID 5. -/
theorem claim1_sign_amended_witness :
    ((true = true →
      ∃ t ∈ [(⟨5, "roughness_param".toList, "0.05".toList, true⟩ :
          ReplacementTarget)],
        lookupByName [⟨5, "roughness_param".toList, "0.05".toList, true⟩]
            (restAfterTok ("ROUGHNESS roughness_param".toList)) = some t ∧
        (⟨"ROUGHNESS".toList, some ("-5".toList)⟩ : Card).value
          = some ('-' :: natToStr t.id) ∧
        strToInt? ('-' :: natToStr t.id) = some (-(t.id : Int)) ∧
        -(t.id : Int) < 0) ∧
    (true = false →
      (⟨"ROUGHNESS".toList, some ("-5".toList)⟩ : Card).name
          ∉ ([] : List Str) →
      (⟨"ROUGHNESS".toList, some ("-5".toList)⟩ : Card).name
          ∉ ([] : List Str) →
      (⟨"ROUGHNESS".toList, some ("-5".toList)⟩ : Card).value = none ∨
      (⟨"ROUGHNESS".toList, some ("-5".toList)⟩ : Card).value
        = some (restAfterTok ("ROUGHNESS roughness_param".toList)))) :=
  claim1_sign_amended ⟨.project, [], [], []⟩
    [⟨5, "roughness_param".toList, "0.05".toList, true⟩] []
    ("ROUGHNESS roughness_param".toList)
    ⟨"ROUGHNESS".toList, some ("-5".toList)⟩ true [] (by decide) (by decide)

/-- C2, counterexample: the round trip is not idempotent on every parsable
text. The line PARAM -07 in a supported file kind parses, with a
well-formed table holding target ID 7, to the literal stored value -07;
the write pass resolves that negative value through the table and emits
the target's name, and re-parsing stores the canonical -7, a different
card value than the first parse produced. -/
theorem claim2_roundtrip_cex :
    (parse ⟨.project, [], [], []⟩
        (some [⟨7, "some_param".toList, "1".toList, true⟩]) []
        ["PARAM -07".toList]).cards
      = [⟨"PARAM".toList, some ("-07".toList)⟩] ∧
    (parse ⟨.project, [], [], []⟩
        (some [⟨7, "some_param".toList, "1".toList, true⟩]) []
        (writeLines ⟨.project, [], [], []⟩
          (some [⟨7, "some_param".toList, "1".toList, true⟩])
          ("p".toList) ("p".toList)
          (parse ⟨.project, [], [], []⟩
            (some [⟨7, "some_param".toList, "1".toList, true⟩]) []
            ["PARAM -07".toList]).cards)).cards
      = [⟨"PARAM".toList, some ("-7".toList)⟩] ∧
    (parse ⟨.project, [], [], []⟩
        (some [⟨7, "some_param".toList, "1".toList, true⟩]) []
        (writeLines ⟨.project, [], [], []⟩
          (some [⟨7, "some_param".toList, "1".toList, true⟩])
          ("p".toList) ("p".toList)
          (parse ⟨.project, [], [], []⟩
            (some [⟨7, "some_param".toList, "1".toList, true⟩]) []
            ["PARAM -07".toList]).cards)).cards
      ≠ (parse ⟨.project, [], [], []⟩
          (some [⟨7, "some_param".toList, "1".toList, true⟩]) []
          ["PARAM -07".toList]).cards ∧
    WFTargets [⟨7, "some_param".toList, "1".toList, true⟩] := by
  refine ⟨by decide, by decide, by decide, ?_⟩
  simp only [WFTargets]
  decide

/-- C2 (amended): for every parsable card file text whose parsed stored
values are in the canonical shape the writer itself emits — the decidable
goodCard predicate: path values relative and non-empty, a negative numeric
value printed without redundant leading zeros, a non-numeric literal not
colliding with a target name — parsing, serializing the card collection
unchanged under the same output stem, and parsing again yields an
identical ordered card sequence (same names, same values, same order);
outside that shape the round trip can differ, as the counterexample
shows. -/
theorem claim2_roundtrip (cfg : TranscoderConfig)
    (topt : Option (List ReplacementTarget)) (disk : List Str)
    (lines : List Str) (stem : Str) (hW : WFTopt topt)
    (hG : ∀ c ∈ (parse cfg topt disk lines).cards,
      goodCard cfg topt disk c = true) :
    (parse cfg topt disk (writeLines cfg topt stem stem
        (parse cfg topt disk lines).cards)).cards
      = (parse cfg topt disk lines).cards :=
  reparse_writeLines cfg topt disk stem _ hW hG

/-- C2 witness: the round trip on a concrete project file holding literal,
quoted path, sub-file, replaced, count and value-less cards. -/
theorem claim2_roundtrip_witness :
    (parse ⟨.project, ["ROWS".toList], ["WATERSHED_MASK".toList],
        ["FLINE".toList]⟩
      (some [⟨5, "roughness_param".toList, "0.05".toList, true⟩])
      ["parkcity.map".toList]
      (writeLines ⟨.project, ["ROWS".toList], ["WATERSHED_MASK".toList],
          ["FLINE".toList]⟩
        (some [⟨5, "roughness_param".toList, "0.05".toList, true⟩])
        ("parkcity".toList) ("parkcity".toList)
        (parse ⟨.project, ["ROWS".toList], ["WATERSHED_MASK".toList],
            ["FLINE".toList]⟩
          (some [⟨5, "roughness_param".toList, "0.05".toList, true⟩])
          ["parkcity.map".toList]
          ["MAP_FREQ 30".toList, "WMS WMS 9.1 (64-Bit)".toList,
           "WATERSHED_MASK \"parkcity.msk\"".toList,
           "FLINE \"parkcity.map\"".toList,
           "ROUGHNESS roughness_param".toList, "ROWS 72".toList,
           "".toList, "METRIC".toList]).cards)).cards
      = (parse ⟨.project, ["ROWS".toList], ["WATERSHED_MASK".toList],
          ["FLINE".toList]⟩
        (some [⟨5, "roughness_param".toList, "0.05".toList, true⟩])
        ["parkcity.map".toList]
        ["MAP_FREQ 30".toList, "WMS WMS 9.1 (64-Bit)".toList,
         "WATERSHED_MASK \"parkcity.msk\"".toList,
         "FLINE \"parkcity.map\"".toList,
         "ROUGHNESS roughness_param".toList, "ROWS 72".toList,
         "".toList, "METRIC".toList]).cards :=
  claim2_roundtrip ⟨.project, ["ROWS".toList], ["WATERSHED_MASK".toList],
      ["FLINE".toList]⟩
    (some [⟨5, "roughness_param".toList, "0.05".toList, true⟩])
    ["parkcity.map".toList]
    ["MAP_FREQ 30".toList, "WMS WMS 9.1 (64-Bit)".toList,
     "WATERSHED_MASK \"parkcity.msk\"".toList,
     "FLINE \"parkcity.map\"".toList,
     "ROUGHNESS roughness_param".toList, "ROWS 72".toList,
     "".toList, "METRIC".toList] ("parkcity".toList)
    (by simp only [WFTopt, WFTargets]; decide) (by decide)

/-- C3: a card whose value was resolved to a replacement reference during
parse is serialized, with the same lookup table, as the original reference
token — the target's name — and not as the negative numeric placeholder. -/
theorem claim3_write_restores_token (cfg : TranscoderConfig)
    (ts : List ReplacementTarget) (disk : List Str) (line : Str) (c : Card)
    (ws : List Warning) (oldStem newStem : Str) (hW : WFTargets ts)
    (h : parseLine cfg (some ts) disk line = .parsedCard c true ws) :
    writeLine cfg (some ts) oldStem newStem c
      = (firstTok line ++ ' ' :: restAfterTok line, []) ∧
    ∃ t ∈ ts, t.name = restAfterTok line ∧
      c.value = some ('-' :: natToStr t.id) := by
  obtain ⟨t, heq, htm, htn, hsup, hname, hcount, hsub, hpath, hvalue, _⟩ :=
    parseLine_replaced_inv cfg ts disk line c ws h
  have hid : 0 < t.id := hW.1 t htm
  refine ⟨?_, t, htm, htn, hvalue⟩
  have hneg : (-(t.id : Int)) < 0 := neg_neg_of_pos (by exact_mod_cast hid)
  have htonat : ((-(-(t.id : Int))).toNat) = t.id := by simp
  simp only [writeLine, hvalue]
  rw [if_neg (show ¬(c.name ∈ cfg.subFileCards ∨ c.name ∈ cfg.pathCards) by
        tauto),
    if_pos (show cfg.kind.supportsReplacement = true ∧
        c.name ∉ cfg.countCards from ⟨hsup, hcount⟩),
    strToInt?_neg_natToStr t.id hid]
  simp only [if_pos hneg, htonat, lookupById_self hW.2.2.2.1 htm, hname, htn]

/-- C3 witness: writing the replaced ROUGHNESS card with the same table
emits the original token roughness_param. -/
theorem claim3_write_restores_token_witness :
    writeLine ⟨.project, [], [], []⟩
        (some [⟨5, "roughness_param".toList, "0.05".toList, true⟩])
        ("parkcity".toList) ("mymodel".toList)
        ⟨"ROUGHNESS".toList, some ("-5".toList)⟩
      = (firstTok ("ROUGHNESS roughness_param".toList) ++ ' '
          :: restAfterTok ("ROUGHNESS roughness_param".toList), []) ∧
    ∃ t ∈ [(⟨5, "roughness_param".toList, "0.05".toList, true⟩ :
        ReplacementTarget)],
      t.name = restAfterTok ("ROUGHNESS roughness_param".toList) ∧
      (⟨"ROUGHNESS".toList, some ("-5".toList)⟩ : Card).value
        = some ('-' :: natToStr t.id) :=
  claim3_write_restores_token ⟨.project, [], [], []⟩
    [⟨5, "roughness_param".toList, "0.05".toList, true⟩] []
    ("ROUGHNESS roughness_param".toList)
    ⟨"ROUGHNESS".toList, some ("-5".toList)⟩ [] ("parkcity".toList)
    ("mymodel".toList) (by simp only [WFTargets]; decide) (by decide)

/-- C4: a card line naming a sub-file missing on disk does not abort the
parse: the read returns normally (no failure value), the line is skipped
with a missing-sub-file warning, and the cards of all surrounding lines are
still parsed. -/
theorem claim4_missing_subfile (cfg : TranscoderConfig)
    (topt : Option (List ReplacementTarget)) (disk : List Str)
    (pre post : List Str) (line : Str) (p : Str)
    (h : parseLine cfg topt disk line = .skippedMissing p) :
    parseFile cfg topt disk (pre ++ line :: post)
      = .ok ⟨(parse cfg topt disk pre).entries
              ++ (parse cfg topt disk post).entries,
             (parse cfg topt disk pre).warnings
               ++ .missingSubFile p
                 :: (parse cfg topt disk post).warnings⟩ := by
  rw [parseFile, parse_append]
  simp [parse, h]

/-- C4 witness: a project file whose FLINE sub-file is absent from disk
still parses, skipping that line with a warning. -/
theorem claim4_missing_subfile_witness :
    parseFile ⟨.project, [], [], ["FLINE".toList]⟩ none []
        (["GRIDSIZE 90".toList] ++ "FLINE missing.map".toList
          :: ["ROWS 72".toList])
      = .ok ⟨(parse ⟨.project, [], [], ["FLINE".toList]⟩ none []
              ["GRIDSIZE 90".toList]).entries
            ++ (parse ⟨.project, [], [], ["FLINE".toList]⟩ none []
              ["ROWS 72".toList]).entries,
           (parse ⟨.project, [], [], ["FLINE".toList]⟩ none []
              ["GRIDSIZE 90".toList]).warnings
             ++ .missingSubFile ("missing.map".toList)
               :: (parse ⟨.project, [], [], ["FLINE".toList]⟩ none []
                 ["ROWS 72".toList]).warnings⟩ :=
  claim4_missing_subfile ⟨.project, [], [], ["FLINE".toList]⟩ none []
    ["GRIDSIZE 90".toList] ["ROWS 72".toList] ("FLINE missing.map".toList)
    ("missing.map".toList) (by decide)

/-- C5: an item-count card never acquires a negative replacement
placeholder: its value is always stored as the literal token, the line is
never marked replaced, and an attempted substitution (a value matching a
target name) is rejected with a warning. -/
theorem claim5_count_literal (cfg : TranscoderConfig)
    (ts : List ReplacementTarget) (disk : List Str) (line : Str) (c : Card)
    (rep : Bool) (ws : List Warning)
    (hc : firstTok line ∈ cfg.countCards)
    (hs : firstTok line ∉ cfg.subFileCards)
    (hp : firstTok line ∉ cfg.pathCards)
    (h : parseLine cfg (some ts) disk line = .parsedCard c rep ws) :
    rep = false ∧ (c.value = none ∨ c.value = some (restAfterTok line)) ∧
    (∀ t, cfg.kind.supportsReplacement = true →
      lookupByName ts (restAfterTok line) = some t →
      restAfterTok line ≠ [] →
      Warning.unsupportedReplacementContext (firstTok line) ∈ ws) := by
  have hname := parseLine_name cfg (some ts) disk line c rep ws h
  have hrep : rep = false := by
    cases rep
    · rfl
    · obtain ⟨t, _, _, _, _, hnm, hcount, _, _, _, _⟩ :=
        parseLine_replaced_inv cfg ts disk line c ws h
      exact absurd (hnm.symm ▸ hc) hcount
  subst hrep
  refine ⟨rfl, parseLine_literal_inv cfg (some ts) disk line c ws
    (hname ▸ hs) (hname ▸ hp) h, ?_⟩
  intro t hsup hlk hraw
  simp only [parseLine] at h
  iterate 10 (all_goals (try split at h))
  all_goals first
    | exact LineResult.noConfusion h
    | (simp_all; rw [← h.2]; simp)
    | simp_all

/-- C5 witness: the count card ROWS with a value matching a target name is
stored literally and draws the rejection warning. -/
theorem claim5_count_literal_witness :
    (false = false ∧
      ((⟨"ROWS".toList, some ("roughness_param".toList)⟩ : Card).value = none ∨
       (⟨"ROWS".toList, some ("roughness_param".toList)⟩ : Card).value
         = some (restAfterTok ("ROWS roughness_param".toList))) ∧
      (∀ t, FileKind.supportsReplacement .project = true →
        lookupByName [⟨5, "roughness_param".toList, "0.05".toList, true⟩]
            (restAfterTok ("ROWS roughness_param".toList)) = some t →
        restAfterTok ("ROWS roughness_param".toList) ≠ [] →
        Warning.unsupportedReplacementContext
            (firstTok ("ROWS roughness_param".toList))
          ∈ [Warning.unsupportedReplacementContext ("ROWS".toList)])) :=
  claim5_count_literal ⟨.project, ["ROWS".toList], [], []⟩
    [⟨5, "roughness_param".toList, "0.05".toList, true⟩] []
    ("ROWS roughness_param".toList)
    ⟨"ROWS".toList, some ("roughness_param".toList)⟩ false
    [Warning.unsupportedReplacementContext ("ROWS".toList)]
    (by decide) (by decide) (by decide) (by decide)

/-- C6: in a file kind outside the replacement scheme a parsed value is
always the literal token — never marked as a replacement — and the write
pass re-emits the stored literal verbatim, never resolving a negative
number through the lookup table. -/
theorem claim6_unsupported_literal (cfg : TranscoderConfig)
    (topt : Option (List ReplacementTarget)) (disk : List Str) (line : Str)
    (c : Card) (rep : Bool) (ws : List Warning) (oldStem newStem : Str)
    (hk : cfg.kind.supportsReplacement = false)
    (hs : firstTok line ∉ cfg.subFileCards)
    (hp : firstTok line ∉ cfg.pathCards)
    (h : parseLine cfg topt disk line = .parsedCard c rep ws) :
    rep = false ∧ (c.value = none ∨ c.value = some (restAfterTok line)) ∧
    writeLine cfg topt oldStem newStem c
      = (match c.value with
         | none => (c.name, [])
         | some v => (c.name ++ ' ' :: v, [])) := by
  have hrep := parseLine_unsupported_rep_false cfg topt disk line c rep ws hk h
  have hname := parseLine_name cfg topt disk line c rep ws h
  subst hrep
  refine ⟨rfl, parseLine_literal_inv cfg topt disk line c ws
    (hname ▸ hs) (hname ▸ hp) h, ?_⟩
  rcases hv : c.value with _ | v
  · simp [writeLine, hv]
  · simp only [writeLine, hv]
    rw [if_neg (show ¬(c.name ∈ cfg.subFileCards ∨ c.name ∈ cfg.pathCards)
          by rw [hname]; tauto),
      if_neg (show ¬(cfg.kind.supportsReplacement = true ∧
          c.name ∉ cfg.countCards) by simp [hk])]

/-- C6 witness: in a file of an unsupported kind the literal negative value
-9999 is stored as-is and re-emitted as-is, even with a lookup table
supplied. -/
theorem claim6_unsupported_literal_witness :
    (false = false ∧
      ((⟨"NODATA".toList, some ("-9999".toList)⟩ : Card).value = none ∨
       (⟨"NODATA".toList, some ("-9999".toList)⟩ : Card).value
         = some (restAfterTok ("NODATA -9999".toList))) ∧
      writeLine ⟨.other ("precip".toList), [], [], []⟩
          (some [⟨9999, "big_param".toList, "1".toList, true⟩])
          ("parkcity".toList) ("mymodel".toList)
          ⟨"NODATA".toList, some ("-9999".toList)⟩
        = (match (⟨"NODATA".toList, some ("-9999".toList)⟩ : Card).value with
           | none => ((⟨"NODATA".toList, some ("-9999".toList)⟩ : Card).name,
               ([] : List Warning))
           | some v => ((⟨"NODATA".toList, some ("-9999".toList)⟩ :
               Card).name ++ ' ' :: v, []))) :=
  claim6_unsupported_literal ⟨.other ("precip".toList), [], [], []⟩
    (some [⟨9999, "big_param".toList, "1".toList, true⟩]) []
    ("NODATA -9999".toList) ⟨"NODATA".toList, some ("-9999".toList)⟩ false []
    ("parkcity".toList) ("mymodel".toList)
    (by decide) (by decide) (by decide) (by decide)

/-- C7: a path-holding card's stored value is relative; on write with a new
output stem, a value matching the old stem is rewritten to carry the new
stem supplied by the caller, and the emitted value is again relative. -/
theorem claim7_path_rewrite (cfg : TranscoderConfig)
    (topt : Option (List ReplacementTarget)) (disk : List Str) (line : Str)
    (c : Card) (rep : Bool) (ws : List Warning) (oldStem newStem : Str)
    (hp : firstTok line ∈ cfg.pathCards ∨ firstTok line ∈ cfg.subFileCards)
    (h : parseLine cfg topt disk line = .parsedCard c rep ws)
    (hn : isRel newStem = true) :
    ∀ v, c.value = some v →
      isRel (stripQuotes v).1 = true ∧
      writeLine cfg topt oldStem newStem c
        = (c.name ++ ' ' :: addQuotes
            (renameStem oldStem newStem (stripQuotes v).1)
            (stripQuotes v).2, []) ∧
      isRel (renameStem oldStem newStem (stripQuotes v).1) = true ∧
      ((oldStem ++ ['.']).isPrefixOf (stripQuotes v).1 = true →
        renameStem oldStem newStem (stripQuotes v).1
          = newStem ++ (stripQuotes v).1.drop oldStem.length) := by
  intro v hv
  have hname := parseLine_name cfg topt disk line c rep ws h
  have hpv := parseLine_path_inv cfg topt disk line c rep ws hp h
  rcases hpv with hnone | ⟨v0, hv0⟩
  · rw [hv] at hnone
    exact Option.noConfusion hnone
  · rw [hv] at hv0
    have hveq : v = addQuotes (afterLastSlash (stripQuotes v0).1)
        (stripQuotes v0).2 := by
      injection hv0
    have hrel : isRel (stripQuotes v).1 = true := by
      rw [hveq]
      exact isRel_strip_add _ _ (isRel_afterLastSlash _)
    refine ⟨hrel, ?_, isRel_renameStem oldStem newStem _ hrel hn,
      fun hpre => renameStem_match oldStem newStem _ hpre⟩
    simp only [writeLine, hv]
    rw [if_pos (show c.name ∈ cfg.subFileCards ∨ c.name ∈ cfg.pathCards by
      rw [hname]; tauto)]

/-- C7 witness: the quoted path dir/parkcity.msk is stored as the relative
parkcity.msk and written with the stem rewritten to mymodel. -/
theorem claim7_path_rewrite_witness :
    isRel (stripQuotes ("\"parkcity.msk\"".toList)).1 = true ∧
    writeLine ⟨.project, [], ["WATERSHED_MASK".toList], []⟩ none
        ("parkcity".toList) ("mymodel".toList)
        ⟨"WATERSHED_MASK".toList, some ("\"parkcity.msk\"".toList)⟩
      = ((⟨"WATERSHED_MASK".toList,
            some ("\"parkcity.msk\"".toList)⟩ : Card).name
          ++ ' ' :: addQuotes
            (renameStem ("parkcity".toList) ("mymodel".toList)
              (stripQuotes ("\"parkcity.msk\"".toList)).1)
            (stripQuotes ("\"parkcity.msk\"".toList)).2, []) ∧
    isRel (renameStem ("parkcity".toList) ("mymodel".toList)
        (stripQuotes ("\"parkcity.msk\"".toList)).1) = true ∧
    renameStem ("parkcity".toList) ("mymodel".toList)
        (stripQuotes ("\"parkcity.msk\"".toList)).1
      = "mymodel".toList
        ++ (stripQuotes ("\"parkcity.msk\"".toList)).1.drop
            ("parkcity".toList).length := by
  have hmain := claim7_path_rewrite
    ⟨.project, [], ["WATERSHED_MASK".toList], []⟩ none []
    ("WATERSHED_MASK \"dir/parkcity.msk\"".toList)
    ⟨"WATERSHED_MASK".toList, some ("\"parkcity.msk\"".toList)⟩ false []
    ("parkcity".toList) ("mymodel".toList) (by decide) (by decide)
    (by decide) ("\"parkcity.msk\"".toList) (by decide)
  exact ⟨hmain.1, hmain.2.1, hmain.2.2.1, hmain.2.2.2 (by decide)⟩

/-- C8: parsing MAP_FREQ 30 yields the card (MAP_FREQ, 30); reassigning one
card's value changes only that card's output line — every other written
line is unchanged — and on the concrete three-card file the updated output
is exactly the original with MAP_FREQ 10 in place. -/
theorem claim8_update_frame (cfg : TranscoderConfig)
    (topt : Option (List ReplacementTarget)) (oldStem newStem : Str)
    (cards : List Card) (i : Nat) (c' : Card) (j : Nat) (hj : j ≠ i) :
    parseLine ⟨.project, [], [], []⟩ none [] ("MAP_FREQ 30".toList)
      = .parsedCard ⟨"MAP_FREQ".toList, some ("30".toList)⟩ false [] ∧
    (writeLines cfg topt oldStem newStem (cards.set i c'))[j]?
      = (writeLines cfg topt oldStem newStem cards)[j]? ∧
    (writeLines cfg topt oldStem newStem (cards.set i c'))[i]?
      = (cards.set i c')[i]?.map
          (fun c => (writeLine cfg topt oldStem newStem c).1) ∧
    writeLines ⟨.project, [], [], []⟩ none ("p".toList) ("p".toList)
        (((parse ⟨.project, [], [], []⟩ none []
            ["GRIDSIZE 90".toList, "MAP_FREQ 30".toList,
             "ROWS 72".toList]).cards).set 1
          ⟨"MAP_FREQ".toList, some ("10".toList)⟩)
      = ["GRIDSIZE 90".toList, "MAP_FREQ 10".toList, "ROWS 72".toList] := by
  refine ⟨by decide, ?_, ?_, by decide⟩
  · simp only [writeLines, List.map_set]
    exact List.getElem?_set_ne (fun he => hj he.symm)
  · simp only [writeLines, List.getElem?_map]

/-- C8 witness: the frame condition at a concrete two-card list, updated at
index 1 and observed at index 0. -/
theorem claim8_update_frame_witness :
    parseLine ⟨.project, [], [], []⟩ none [] ("MAP_FREQ 30".toList)
      = .parsedCard ⟨"MAP_FREQ".toList, some ("30".toList)⟩ false [] ∧
    (writeLines ⟨.project, [], [], []⟩ none ("p".toList) ("p".toList)
        (([⟨"GRIDSIZE".toList, some ("90".toList)⟩,
           ⟨"MAP_FREQ".toList, some ("30".toList)⟩] : List Card).set 1
          ⟨"MAP_FREQ".toList, some ("10".toList)⟩))[0]?
      = (writeLines ⟨.project, [], [], []⟩ none ("p".toList) ("p".toList)
          [⟨"GRIDSIZE".toList, some ("90".toList)⟩,
           ⟨"MAP_FREQ".toList, some ("30".toList)⟩])[0]? ∧
    (writeLines ⟨.project, [], [], []⟩ none ("p".toList) ("p".toList)
        (([⟨"GRIDSIZE".toList, some ("90".toList)⟩,
           ⟨"MAP_FREQ".toList, some ("30".toList)⟩] : List Card).set 1
          ⟨"MAP_FREQ".toList, some ("10".toList)⟩))[1]?
      = (([⟨"GRIDSIZE".toList, some ("90".toList)⟩,
           ⟨"MAP_FREQ".toList, some ("30".toList)⟩] : List Card).set 1
          ⟨"MAP_FREQ".toList, some ("10".toList)⟩)[1]?.map
          (fun c => (writeLine ⟨.project, [], [], []⟩ none ("p".toList)
            ("p".toList) c).1) ∧
    writeLines ⟨.project, [], [], []⟩ none ("p".toList) ("p".toList)
        (((parse ⟨.project, [], [], []⟩ none []
            ["GRIDSIZE 90".toList, "MAP_FREQ 30".toList,
             "ROWS 72".toList]).cards).set 1
          ⟨"MAP_FREQ".toList, some ("10".toList)⟩)
      = ["GRIDSIZE 90".toList, "MAP_FREQ 10".toList, "ROWS 72".toList] :=
  claim8_update_frame ⟨.project, [], [], []⟩ none ("p".toList) ("p".toList)
    [⟨"GRIDSIZE".toList, some ("90".toList)⟩,
     ⟨"MAP_FREQ".toList, some ("30".toList)⟩] 1
    ⟨"MAP_FREQ".toList, some ("10".toList)⟩ 0 (by decide)

/-- C9: the batch read and write operations detect replacement support from
the REPLACE_PARAMS and REPLACE_VALS cards of the project file, with no
extra caller argument: with both cards present they run with the
replacement table, and with neither card present they run with no table and
perform no substitution at all. -/
theorem claim9_auto_detect (cfg : TranscoderConfig) (pcards : List Card)
    (rts : List ReplacementTarget) (disk : List Str) (lines : List Str)
    (oldStem newStem : Str) (cards : List Card) :
    ((∃ c ∈ pcards, c.name = "REPLACE_PARAMS".toList) →
     (∃ c ∈ pcards, c.name = "REPLACE_VALS".toList) →
      readInputAuto cfg pcards rts disk lines
        = parse cfg (some rts) disk lines ∧
      writeInputAuto cfg pcards rts oldStem newStem cards
        = writeLines cfg (some rts) oldStem newStem cards) ∧
    ((∀ c ∈ pcards, c.name ≠ "REPLACE_PARAMS".toList ∧
        c.name ≠ "REPLACE_VALS".toList) →
      readInputAuto cfg pcards rts disk lines = parse cfg none disk lines ∧
      writeInputAuto cfg pcards rts oldStem newStem cards
        = writeLines cfg none oldStem newStem cards ∧
      ∀ e ∈ (readInputAuto cfg pcards rts disk lines).entries,
        e.2 = false) := by
  constructor
  · intro h1 h2
    have hd : hasReplaceCards pcards = true := by
      obtain ⟨c1, hc1, hn1⟩ := h1
      obtain ⟨c2, hc2, hn2⟩ := h2
      simp only [hasReplaceCards, Bool.and_eq_true, List.any_eq_true]
      exact ⟨⟨c1, hc1, by simp [hn1]⟩, ⟨c2, hc2, by simp [hn2]⟩⟩
    simp [readInputAuto, writeInputAuto, autoTargets, hd]
  · intro hno
    have hA : pcards.any (fun c => c.name == "REPLACE_PARAMS".toList)
        = false := by
      rw [List.any_eq_false]
      intro c hcm
      simpa using (hno c hcm).1
    have hd : hasReplaceCards pcards = false := by
      unfold hasReplaceCards
      rw [hA, Bool.false_and]
    refine ⟨?_, ?_, ?_⟩
    · simp [readInputAuto, autoTargets, hd]
    · simp [writeInputAuto, autoTargets, hd]
    · intro e he
      simp only [readInputAuto, autoTargets, hd, if_neg] at he
      exact parse_none_no_replace cfg disk lines e (by simpa using he)

/-- C9 witness: both directions at concrete project files — one holding the
two replacement cards, one holding neither. -/
theorem claim9_auto_detect_witness :
    (readInputAuto ⟨.project, [], [], []⟩
        [⟨"REPLACE_PARAMS".toList, some ("replace_param.in".toList)⟩,
         ⟨"REPLACE_VALS".toList, some ("replace_vals.in".toList)⟩]
        [⟨5, "roughness_param".toList, "0.05".toList, true⟩] []
        ["ROUGHNESS roughness_param".toList]
      = parse ⟨.project, [], [], []⟩
          (some [⟨5, "roughness_param".toList, "0.05".toList, true⟩]) []
          ["ROUGHNESS roughness_param".toList]) ∧
    (readInputAuto ⟨.project, [], [], []⟩
        [⟨"MAP_FREQ".toList, some ("30".toList)⟩]
        [⟨5, "roughness_param".toList, "0.05".toList, true⟩] []
        ["ROUGHNESS roughness_param".toList]
      = parse ⟨.project, [], [], []⟩ none []
          ["ROUGHNESS roughness_param".toList]) ∧
    (∀ e ∈ (readInputAuto ⟨.project, [], [], []⟩
        [⟨"MAP_FREQ".toList, some ("30".toList)⟩]
        [⟨5, "roughness_param".toList, "0.05".toList, true⟩] []
        ["ROUGHNESS roughness_param".toList]).entries, e.2 = false) := by
  have hboth := (claim9_auto_detect ⟨.project, [], [], []⟩
    [⟨"REPLACE_PARAMS".toList, some ("replace_param.in".toList)⟩,
     ⟨"REPLACE_VALS".toList, some ("replace_vals.in".toList)⟩]
    [⟨5, "roughness_param".toList, "0.05".toList, true⟩] []
    ["ROUGHNESS roughness_param".toList] [] [] []).1
    ⟨⟨"REPLACE_PARAMS".toList, some ("replace_param.in".toList)⟩,
      by simp, rfl⟩
    ⟨⟨"REPLACE_VALS".toList, some ("replace_vals.in".toList)⟩,
      by simp, rfl⟩
  have hnone := (claim9_auto_detect ⟨.project, [], [], []⟩
    [⟨"MAP_FREQ".toList, some ("30".toList)⟩]
    [⟨5, "roughness_param".toList, "0.05".toList, true⟩] []
    ["ROUGHNESS roughness_param".toList] [] [] []).2 (by decide)
  exact ⟨hboth.1, hnone.1, hnone.2.2⟩

/-- C10: replacement substitution applies only to card values, never to
card names — every parsed card's name is the literal leading token of its
input line, whatever lookup table is supplied, and every card of a parsed
file takes its name from some line of the file. -/
theorem claim10_name_literal (cfg : TranscoderConfig)
    (topt : Option (List ReplacementTarget)) (disk : List Str)
    (lines : List Str) :
    (∀ line c rep ws, parseLine cfg topt disk line = .parsedCard c rep ws →
      c.name = firstTok line) ∧
    (∀ c ∈ (parse cfg topt disk lines).cards,
      ∃ line ∈ lines, c.name = firstTok line) := by
  refine ⟨fun line c rep ws h =>
    parseLine_name cfg topt disk line c rep ws h, ?_⟩
  induction lines with
  | nil =>
      intro c hc
      simp [parse, ParseResult.cards] at hc
  | cons l ls ih =>
      intro c hc
      cases hpl : parseLine cfg topt disk l with
      | blank =>
          simp only [parse, hpl] at hc
          obtain ⟨line, hl, he⟩ := ih c hc
          exact ⟨line, List.mem_cons_of_mem l hl, he⟩
      | skippedMissing p =>
          simp only [parse, hpl, ParseResult.cards] at hc
          obtain ⟨line, hl, he⟩ := ih c (by simpa [ParseResult.cards] using hc)
          exact ⟨line, List.mem_cons_of_mem l hl, he⟩
      | parsedCard c0 rep ws =>
          simp only [parse, hpl, ParseResult.cards, List.map_cons,
            List.mem_cons] at hc
          rcases hc with hc | hc
          · exact ⟨l, List.mem_cons_self l ls, by
              rw [hc]
              exact parseLine_name cfg topt disk l c0 rep ws hpl⟩
          · obtain ⟨line, hl, he⟩ := ih c (by simpa [ParseResult.cards]
              using hc)
            exact ⟨line, List.mem_cons_of_mem l hl, he⟩

/-- C10 witness: the replaced ROUGHNESS card keeps its literal name and the
names of a parsed concrete file all come from its lines. -/
theorem claim10_name_literal_witness :
    ((⟨"ROUGHNESS".toList, some ("-5".toList)⟩ : Card).name
      = firstTok ("ROUGHNESS roughness_param".toList)) ∧
    (∀ c ∈ (parse ⟨.project, [], [], []⟩
        (some [⟨5, "roughness_param".toList, "0.05".toList, true⟩]) []
        ["ROUGHNESS roughness_param".toList, "MAP_FREQ 30".toList]).cards,
      ∃ line ∈ ["ROUGHNESS roughness_param".toList, "MAP_FREQ 30".toList],
        c.name = firstTok line) := by
  have hmain := claim10_name_literal ⟨.project, [], [], []⟩
    (some [⟨5, "roughness_param".toList, "0.05".toList, true⟩]) []
    ["ROUGHNESS roughness_param".toList, "MAP_FREQ 30".toList]
  exact ⟨hmain.1 ("ROUGHNESS roughness_param".toList)
      ⟨"ROUGHNESS".toList, some ("-5".toList)⟩ true [] (by decide),
    hmain.2⟩

example :
    parseLine ⟨.project, [], [], []⟩
        (some [⟨5, "roughness_param".toList, [], true⟩]) []
        ("ROUGHNESS roughness_param".toList)
      = .parsedCard ⟨"ROUGHNESS".toList, some ("-5".toList)⟩ true [] := by
  decide

example :
    (writeLine ⟨.project, [], [], []⟩
        (some [⟨5, "roughness_param".toList, [], true⟩]) [] []
        ⟨"ROUGHNESS".toList, some ("-5".toList)⟩).1
      = "ROUGHNESS roughness_param".toList := by
  decide

example :
    parseLine ⟨.project, [], ["WATERSHED_MASK".toList], []⟩ none []
        ("WATERSHED_MASK \"dir/parkcity.msk\"".toList)
      = .parsedCard ⟨"WATERSHED_MASK".toList,
          some ("\"parkcity.msk\"".toList)⟩ false [] := by
  decide

example :
    (writeLine ⟨.project, [], ["WATERSHED_MASK".toList], []⟩ none
        ("parkcity".toList) ("mymodel".toList)
        ⟨"WATERSHED_MASK".toList, some ("\"parkcity.msk\"".toList)⟩).1
      = "WATERSHED_MASK \"mymodel.msk\"".toList := by
  decide

end GsshaPy
